import Mathlib

/-!
# cypress-graphql-mock: a model of `dist/index.js`

The compiled module registers two Cypress commands.  `mockGraphql` builds an
executable schema, keeps a mutable operation table (`currentOps`) and replaces
`window.fetch` by a wrapper that answers GraphQL POST requests locally.
`mockGraphqlOps` merges new entries into the operation table of a previously
registered interceptor, found through an alias.

JavaScript values are embedded as a datatype; the external collaborators
(`JSON.parse`, the GraphQL engine, schema construction, calls of function
values, the original `fetch` of the page) are parameters.  Every external call
made while a request is handled is recorded in a trace, so that "is not
invoked" is a statement about that trace.
-/

set_option autoImplicit false

namespace CypressGraphqlMock

/-! ## JavaScript values -/

/-- JavaScript values.  A number is carried by its canonical decimal text (the
result of `ToString`), which is all this module ever observes of a number.  A
function value is carried by an identifier; what calling it does is supplied by
the environment.  `obj` is an ordinary object: its own enumerable data
properties in enumeration order, with `Object.prototype` as its prototype. -/
inductive JSVal where
  | undefined
  | null
  | bool (b : Bool)
  | num (text : String)
  | str (s : String)
  | fn (id : String)
  | arr (items : List JSVal)
  | obj (props : List (String × JSVal))

namespace JSVal

instance : Inhabited JSVal := ⟨undefined⟩

/-- ToBoolean: `undefined`, `null`, `false`, `0`, `NaN` and the empty string
are falsy, everything else is truthy. -/
def truthy : JSVal → Bool
  | undefined => false
  | null => false
  | bool b => b
  | num t => !(t == "0" || t == "NaN")
  | str s => !(s == "")
  | fn _ => true
  | arr _ => true
  | obj _ => true

/-- The test `typeof v === "function"`. -/
def isFunction : JSVal → Bool
  | fn _ => true
  | _ => false

/-- The test `typeof v === "string"`. -/
def isString : JSVal → Bool
  | str _ => true
  | _ => false

/-- The test `Array.isArray(v)`. -/
def isArray : JSVal → Bool
  | arr _ => true
  | _ => false

/-- The test `v === s` against a string literal `s` (strict equality). -/
def strictEqString (v : JSVal) (s : String) : Bool :=
  match v with
  | str t => t == s
  | _ => false

end JSVal

/-- An operation table, and more generally the own properties of an ordinary
object: property names with their values, first binding of a name first. -/
abbrev Table := List (String × JSVal)

namespace Table

/-- Own property names. -/
def keys (t : Table) : List String := t.map Prod.fst

/-- Own property lookup. -/
def own (t : Table) (k : String) : Option JSVal :=
  match t with
  | [] => none
  | (k', v) :: rest => if k' = k then some v else own rest k

end Table

/-- The function-valued properties every ordinary object inherits from
`Object.prototype`. -/
def objectPrototype : Table :=
  [ ("constructor", .fn "Object"),
    ("hasOwnProperty", .fn "Object.prototype.hasOwnProperty"),
    ("isPrototypeOf", .fn "Object.prototype.isPrototypeOf"),
    ("propertyIsEnumerable", .fn "Object.prototype.propertyIsEnumerable"),
    ("toLocaleString", .fn "Object.prototype.toLocaleString"),
    ("toString", .fn "Object.prototype.toString"),
    ("valueOf", .fn "Object.prototype.valueOf"),
    ("__defineGetter__", .fn "Object.prototype.__defineGetter__"),
    ("__defineSetter__", .fn "Object.prototype.__defineSetter__"),
    ("__lookupGetter__", .fn "Object.prototype.__lookupGetter__"),
    ("__lookupSetter__", .fn "Object.prototype.__lookupSetter__") ]

/-- The property read `o[k]` on an ordinary object with own properties `t`:
an own property wins, otherwise the property is looked up on
`Object.prototype` (whose accessor `__proto__` yields the prototype itself),
otherwise the read gives `undefined`. -/
def Table.get (t : Table) (k : String) : JSVal :=
  match t.own k with
  | some v => v
  | none =>
    if k = "__proto__" then .obj objectPrototype
    else (objectPrototype.own k).getD .undefined

/-- The property read `v.k` for a value that is not `null` or `undefined`, used
with the fixed names `method`, `body`, `operationName`, `query`, `variables`,
`extensions` and `persistedQuery` only; no builtin prototype defines one of
these, so a primitive, an array or a function yields `undefined`. -/
def JSVal.field (v : JSVal) (k : String) : JSVal :=
  match v with
  | .obj props => Table.get props k
  | _ => .undefined

/-- Whether a property read on the value throws a `TypeError`. -/
def JSVal.isNullish : JSVal → Bool
  | .undefined => true
  | .null => true
  | _ => false

/-! ## `JSON.stringify` -/

/-- Lower-case hexadecimal digit of a number below sixteen. -/
def hexDigit (n : Nat) : Char :=
  if n < 10 then Char.ofNat (48 + n) else Char.ofNat (87 + n)

/-- The escape `JSON.stringify` writes for one character of a string: the
double quote (34) and the backslash (92) are preceded by a backslash, the
control characters below 32 get their short or `u00xx` escape. -/
def quoteChar (c : Char) : List Char :=
  let backslash := Char.ofNat 92
  if c.toNat = 34 then [backslash, c]
  else if c.toNat = 92 then [backslash, c]
  else if c.toNat = 8 then [backslash, 'b']
  else if c.toNat = 12 then [backslash, 'f']
  else if c.toNat = 10 then [backslash, 'n']
  else if c.toNat = 13 then [backslash, 'r']
  else if c.toNat = 9 then [backslash, 't']
  else if c.toNat < 32 then
    [backslash, 'u', '0', '0', hexDigit (c.toNat / 16), hexDigit (c.toNat % 16)]
  else [c]

/-- QuoteJSONString: the string between double quotes, with escapes. -/
def quoteJSONString (s : String) : String :=
  String.mk ([Char.ofNat 34] ++ (s.toList.map quoteChar).flatten ++ [Char.ofNat 34])

/-- Joins the pieces of an array or object with commas. -/
def commaJoin : List String → String
  | [] => ""
  | [s] => s
  | s :: rest => s ++ "," ++ commaJoin rest

mutual
/-- SerializeJSONProperty: the JSON text of a value, or `none` where
`JSON.stringify` gives `undefined` (for `undefined` and for functions). -/
def serializeJSONProperty : JSVal → Option String
  | .undefined => none
  | .fn _ => none
  | .null => some "null"
  | .bool b => some (if b then "true" else "false")
  | .num t => some (if t = "NaN" ∨ t = "Infinity" ∨ t = "-Infinity" then "null" else t)
  | .str s => some (quoteJSONString s)
  | .arr items => some ("[" ++ commaJoin (serializeJSONArray items) ++ "]")
  | .obj props => some ("\x7b" ++ commaJoin (serializeJSONObject props) ++ "\x7d")
/-- SerializeJSONArray: an element without a JSON text is written `null`. -/
def serializeJSONArray : List JSVal → List String
  | [] => []
  | v :: rest => (serializeJSONProperty v).getD "null" :: serializeJSONArray rest
/-- SerializeJSONObject: a property without a JSON text is left out. -/
def serializeJSONObject : List (String × JSVal) → List String
  | [] => []
  | (k, v) :: rest =>
    match serializeJSONProperty v with
    | some text => (quoteJSONString k ++ ":" ++ text) :: serializeJSONObject rest
    | none => serializeJSONObject rest
end

/-- The call `JSON.stringify(value)` for a value without `toJSON` methods. -/
def jsonStringify (value : JSVal) : Option String := serializeJSONProperty value

/-! ## Effects: exceptions, promises and the trace of external calls -/

/-- What a `throw` carries. -/
inductive Thrown where
  /-- An `Error` object created by this module with `new Error(message)`. -/
  | error (message : String)
  /-- The `TypeError` of a property read on `null` or `undefined`. -/
  | typeError
  /-- A value thrown by an external collaborator or by a function value. -/
  | raised (value : JSVal)
  /-- The failure of `cy.get("@alias")` when the alias was never registered. -/
  | unknownAlias (aliasKey : String)

/-- The eventual state of a promise. -/
inductive PromiseState (α : Type) where
  | pending
  | fulfilled (value : α)
  | rejected (reason : JSVal)

/-- The argument object of the call `graphql_1.graphql(...)`. -/
structure GraphQLArgs where
  schema : JSVal
  source : JSVal
  variableValues : JSVal
  operationName : JSVal
  rootValue : JSVal

/-- A call of an external collaborator. -/
inductive Event where
  | originalFetch (input init : JSVal)
  | jsonParse (text : JSVal)
  | graphql (args : GraphQLArgs)
  | call (fn : String) (argument : JSVal)

/-- A computation of the module: the external calls it made, in order, and
either the value it returned or what it threw. -/
structure Run (α : Type) where
  trace : List Event
  result : Except Thrown α

namespace Run

/-- Returns a value without any external call. -/
def ret {α : Type} (a : α) : Run α := ⟨[], .ok a⟩

/-- Throws without any external call. -/
def throw {α : Type} (e : Thrown) : Run α := ⟨[], .error e⟩

/-- One external call with its outcome. -/
def perform {α : Type} (e : Event) (outcome : Except Thrown α) : Run α := ⟨[e], outcome⟩

/-- Sequencing: a throw ends the computation, the traces are concatenated. -/
def andThen {α β : Type} (r : Run α) (f : α → Run β) : Run β :=
  match r.result with
  | .ok a => ⟨r.trace ++ (f a).trace, (f a).result⟩
  | .error e => ⟨r.trace, .error e⟩

instance : Monad Run where
  pure := ret
  bind := andThen

end Run

/-- The external collaborators.  `call id v` is the call `f(v)` of the function
value `fn id`; `toPropertyKey` is the conversion of an object, array or
function used as a property name; the other fields are the library functions
of the same names (`makeExecutableSchema` takes its options object,
`addMockFunctionsToSchema` takes the schema and the mocks and gives the schema
with the mocks added).  A collaborator returns, or throws a value (`Except`);
the engine returns a promise. -/
structure Env where
  call : String → JSVal → Except JSVal JSVal
  toPropertyKey : JSVal → Except JSVal String
  jsonParse : JSVal → Except JSVal JSVal
  graphql : GraphQLArgs → PromiseState JSVal
  makeExecutableSchema : JSVal → Except JSVal JSVal
  addMockFunctionsToSchema : JSVal → JSVal → Except JSVal JSVal
  buildClientSchema : JSVal → Except JSVal JSVal
  printSchema : JSVal → Except JSVal JSVal

/-- The outcome of an external call as seen by the module: a thrown value
arrives as `Thrown.raised`. -/
def external {α : Type} : Except JSVal α → Except Thrown α
  | .ok a => .ok a
  | .error v => .error (.raised v)

/-! ## `Promise.all` and `then` -/

/-- The bookkeeping of one `Promise.all` call: the slots of the result array,
the count of elements not yet fulfilled, and how the combined promise settled
(`none` while it has not). -/
structure AllState where
  values : List (Option JSVal)
  remaining : Nat
  settled : Option (PromiseState JSVal)

/-- The reaction of `Promise.all` when the promise at index `i` settles.  A
fulfilment stores the value in slot `i` and, when it was the last one, resolves
the combined promise with the array of the slots; a rejection rejects the
combined promise.  A promise settles once, and a settled combined promise
keeps its state. -/
def promiseAllStep (promises : List (PromiseState JSVal)) (st : AllState) (i : Nat) :
    AllState :=
  match promises.get? i, st.values.get? i with
  | some (.fulfilled v), some none =>
    let values := st.values.set i (some v)
    let remaining := st.remaining - 1
    if remaining = 0 then
      { values := values, remaining := remaining,
        settled := st.settled.orElse
          (fun _ => some (.fulfilled (.arr (values.map (fun slot => slot.getD .undefined))))) }
    else { values := values, remaining := remaining, settled := st.settled }
  | some (.rejected reason), _ =>
    { st with settled := st.settled.orElse (fun _ => some (.rejected reason)) }
  | _, _ => st

/-- The promise `Promise.all(promises)`, when the input promises settle in the
order `order` (a list of indices).  An empty input resolves at once with the
empty array. -/
def promiseAll (promises : List (PromiseState JSVal)) (order : List Nat) :
    PromiseState JSVal :=
  let start : AllState :=
    { values := List.replicate promises.length none,
      remaining := promises.length,
      settled := if promises.length = 0 then some (.fulfilled (.arr [])) else none }
  ((order.foldl (promiseAllStep promises) start).settled).getD .pending

/-- The promise `p.then(f)` for a callback `f` that returns a plain value. -/
def PromiseState.andThen {α β : Type} (p : PromiseState α) (f : α → β) : PromiseState β :=
  match p with
  | .pending => .pending
  | .fulfilled a => .fulfilled (f a)
  | .rejected reason => .rejected reason

/-! ## The module's functions -/

/-- The body given to `new Response(body)`; `none` is `undefined`. -/
structure Response where
  body : Option String

/-- The property name a value used as `operations[operationName]` denotes: a
string is its own name, a number or boolean its text, an object, array or
function is converted by the environment. -/
def propertyKey (env : Env) : JSVal → Except Thrown String
  | .str s => .ok s
  | .num t => .ok t
  | .bool b => .ok (if b then "true" else "false")
  | .undefined => .ok "undefined"
  | .null => .ok "null"
  | v => external (env.toPropertyKey v)

/-- The call `f(v)` of the function value `fn id`, a plain call, so with `this`
undefined.  The builtin `Object.prototype.toString` then returns
`"[object Undefined]"`; every other function is the environment's. -/
def callFunction (env : Env) (id : String) (v : JSVal) : Except Thrown JSVal :=
  if id = "Object.prototype.toString" then .ok (.str "[object Undefined]")
  else external (env.call id v)

/-- The function `getRootValue(operations, operationName, variables)`
(`index.js` lines 122-131); `vars` stands for the parameter `variables`. -/
def getRootValue (env : Env) (operations : Table) (operationName vars : JSVal) :
    Run JSVal :=
  if !operationName.truthy then Run.ret (.obj [])
  else
    match propertyKey env operationName with
    | .error e => Run.throw e
    | .ok key =>
      if !(operations.get key).truthy then Run.ret (.obj [])
      else
        let op := operations.get key
        match op with
        | .fn id => Run.perform (.call id vars) (callFunction env id vars)
        | _ => Run.ret op

/-- The value `{ errors: [{ message: "PersistedQueryNotSupported" }] }`. -/
def persistedQueryNotSupported : JSVal :=
  .obj [("errors", .arr [.obj [("message", .str "PersistedQueryNotSupported")]])]

/-- The closure `mockGraphqlResponse(payload)` (`index.js` lines 53-71), for the
schema fixed at setup and the value `currentOps` has when it is called. -/
def mockGraphqlResponse (env : Env) (schema : JSVal) (currentOps : Table) (payload : JSVal) :
    Run (PromiseState JSVal) :=
  if payload.isNullish then Run.throw .typeError
  else
    let operationName := payload.field "operationName"
    let query := payload.field "query"
    let vars := payload.field "variables"
    if (payload.field "extensions").truthy
        && ((payload.field "extensions").field "persistedQuery").truthy then
      Run.ret (.fulfilled persistedQueryNotSupported)
    else do
      let rootValue ← getRootValue env currentOps operationName vars
      let args : GraphQLArgs :=
        { schema := schema, source := query, variableValues := vars,
          operationName := operationName, rootValue := rootValue }
      Run.perform (.graphql args) (.ok (env.graphql args))

/-- The call `payload.map(mockGraphqlResponse)`: the elements in order, ended
by the first call that throws. -/
def arrayMap (f : JSVal → Run (PromiseState JSVal)) :
    List JSVal → Run (List (PromiseState JSVal))
  | [] => Run.ret []
  | p :: rest => do
    let r ← f p
    let rs ← arrayMap f rest
    pure (r :: rs)

/-- Position of the first occurrence of `needle` in `hay` at or after the
position `pos` the list `hay` starts at, or `-1`. -/
def indexOfFrom (needle : List Char) (pos : Nat) : List Char → Int
  | [] => if needle.isEmpty then (pos : Int) else -1
  | c :: rest =>
    if needle.isPrefixOf (c :: rest) then (pos : Int) else indexOfFrom needle (pos + 1) rest

/-- The call `input.indexOf(endpoint)`. -/
def indexOf (input endpoint : String) : Int :=
  indexOfFrom endpoint.toList 0 input.toList

/-- What the patched `fetch` returns: the value `originalFetch(input, init)`
evaluated to, or a promise of a synthetic response. -/
inductive FetchReturn (ρ : Type) where
  | original (value : ρ)
  | promise (state : PromiseState Response)

/-- The message of the error thrown for an input that is not a string. -/
def unsupportedMessage : String :=
  "Currently only support fetch(url, options), saw fetch(Request)"

/-- The closure `fetch(input, init)` (`index.js` lines 72-90), for the endpoint
and schema fixed at setup, the value `currentOps` has when it is called, and the
`window.fetch` it replaced.  `order` is the order in which the promises of a
batch settle. -/
def fetch {ρ : Type} (env : Env) (endpoint : String) (schema : JSVal) (currentOps : Table)
    (originalFetch : JSVal → JSVal → ρ) (order : List Nat) (input init : JSVal) :
    Run (FetchReturn ρ) :=
  match input with
  | .str url =>
    if indexOf url endpoint != -1 && init.truthy
        && (init.field "method").strictEqString "POST" then do
      let payload ← Run.perform (.jsonParse (init.field "body"))
        (external (env.jsonParse (init.field "body")))
      let response ←
        match payload with
        | .arr items => do
          let promises ← arrayMap (mockGraphqlResponse env schema currentOps) items
          pure (promiseAll promises order)
        | single => mockGraphqlResponse env schema currentOps single
      pure (.promise (response.andThen (fun data => ⟨jsonStringify data⟩)))
    else
      Run.perform (.originalFetch input init) (.ok (.original (originalFetch input init)))
  | _ => Run.throw (.error unsupportedMessage)

/-! ## The Cypress commands -/

/-- The property write `t[k] = v` on an ordinary object whose prototype is
`Object.prototype`: an own property is updated in place, a new one is added
last.  The name `__proto__` reaches the inherited setter instead, which adds
no own property (the prototype it installs is not part of this model). -/
def setProperty (t : Table) (k : String) (v : JSVal) : Table :=
  if k = "__proto__" then t
  else
    match t with
    | [] => [(k, v)]
    | (k', v') :: rest => if k' = k then (k, v) :: rest else (k', v') :: setProperty rest k v

/-- One source of `Object.assign`: every own property of the source, in order,
is written to the target. -/
def assignFrom (target source : Table) : Table :=
  source.foldl (fun t p => setProperty t p.1 p.2) target

/-- The helper `tslib_1.__assign(target, ...sources)`, that is `Object.assign`: the
sources are copied into the target from left to right. -/
def __assign (target : Table) (sources : List Table) : Table :=
  sources.foldl assignFrom target

/-- A table that represents an object literal: no property name occurs twice,
and none is the accessor name `__proto__`. -/
def Table.WellFormed (t : Table) : Prop :=
  t.keys.Nodup ∧ "__proto__" ∉ t.keys

instance (t : Table) : Decidable t.WellFormed :=
  inferInstanceAs (Decidable (t.keys.Nodup ∧ "__proto__" ∉ t.keys))

/-- The method `setOperations(newOperations)` (`index.js` lines 95-97): the new
value of `currentOps`, given its current one. -/
def setOperations (currentOps newOperations : Table) : Table :=
  __assign [] [currentOps, newOperations]

/-- The options object of both commands.  `name` and `endpoint` are optional
strings and `operations` an optional table, as the package's typings declare
them; `none` is `undefined`. -/
structure Options where
  schema : JSVal
  name : Option String
  endpoint : Option String
  operations : Option Table
  mocks : Option JSVal

/-- ToBoolean of an optional string. -/
def optTruthy : Option String → Bool
  | some s => !(s == "")
  | none => false

/-- The expression `a || b` on optional strings. -/
def optOr (a b : Option String) : Option String :=
  if optTruthy a then a else b

/-- ToString of an optional string. -/
def optToString : Option String → String
  | some s => s
  | none => "undefined"

/-- The function `getAlias({ name, endpoint })` (`index.js` lines 106-113). -/
def getAlias (options : Options) : String :=
  let name := options.name
  let endpoint := options.endpoint
  if optTruthy (optOr name endpoint) then "mockGraphqlOps:" ++ optToString (optOr name endpoint)
  else "mockGraphqlOps"

/-- The function `schemaAsSDL(schema)` (`index.js` lines 116-121). -/
def schemaAsSDL (env : Env) (schema : JSVal) : Except Thrown JSVal :=
  if schema.isString || schema.isArray then .ok schema
  else do
    let clientSchema ← external (env.buildClientSchema schema)
    external (env.printSchema clientSchema)

/-- What the `window:before:load` listener of one `mockGraphql` call closes
over: the endpoint and schema, fixed, and the variable `currentOps`, given by
its index among the variables of all calls. -/
structure Interceptor where
  endpoint : String
  schema : JSVal
  cell : Nat

/-- The state the two commands act on: the `currentOps` variable of every
`mockGraphql` call so far, the registered listeners, and the aliases, each
naming the `currentOps` variable its `setOperations` assigns (the latest
registration of an alias first). -/
structure Cy where
  cells : List Table
  listeners : List Interceptor
  aliases : List (String × Nat)

/-- The latest registration of an alias among the registrations. -/
def lookupAlias (key : String) : List (String × Nat) → Option Nat
  | [] => none
  | (k, cell) :: rest => if k = key then some cell else lookupAlias key rest

/-- The `currentOps` variable an alias resolves to (`cy.get("@" + key)`). -/
def Cy.resolve (cy : Cy) (key : String) : Option Nat :=
  lookupAlias key cy.aliases

/-- The command `mockGraphql(options)` (`index.js` lines 36-99). -/
def mockGraphql (env : Env) (cy : Cy) (options : Options) : Except Thrown Cy := do
  let endpoint := options.endpoint.getD "/graphql"
  let operations := options.operations.getD []
  let mocks := options.mocks.getD (.obj [])
  let typeDefs ← schemaAsSDL env options.schema
  let schema ← external (env.makeExecutableSchema (.obj [("typeDefs", typeDefs)]))
  let schema ← external (env.addMockFunctionsToSchema schema mocks)
  pure
    { cells := cy.cells ++ [operations],
      listeners := cy.listeners ++ [⟨endpoint, schema, cy.cells.length⟩],
      aliases := (getAlias options, cy.cells.length) :: cy.aliases }

/-- The command `mockGraphqlOps(options)` (`index.js` lines 100-105). -/
def mockGraphqlOps (cy : Cy) (options : Options) : Except Thrown Cy :=
  match cy.resolve (getAlias options) with
  | none => .error (.unknownAlias (getAlias options))
  | some cell =>
    .ok { cy with
      cells := cy.cells.set cell (setOperations (cy.cells.getD cell []) (options.operations.getD [])) }

/-- A sequence of `mockGraphqlOps` commands, ended by the first that fails. -/
def mockGraphqlOpsAll (cy : Cy) : List Options → Except Thrown Cy
  | [] => .ok cy
  | options :: rest =>
    match mockGraphqlOps cy options with
    | .ok next => mockGraphqlOpsAll next rest
    | .error e => .error e

/-- The `fetch` a listener installs on a window, called in the state `cy`: the
table is the value `currentOps` has at the time of the call. -/
def installedFetch {ρ : Type} (env : Env) (cy : Cy) (listener : Interceptor)
    (originalFetch : JSVal → JSVal → ρ) (order : List Nat) (input init : JSVal) :
    Run (FetchReturn ρ) :=
  fetch env listener.endpoint listener.schema (cy.cells.getD listener.cell []) originalFetch
    order input init

/-- A request payload naming the operation `A`. -/
def payloadA : JSVal :=
  .obj [("operationName", .str "A"), ("query", .str "query A \x7b viewer \x7d")]

/-- A request payload naming the operation `B`. -/
def payloadB : JSVal :=
  .obj [("operationName", .str "B"), ("query", .str "query B \x7b viewer \x7d")]

/-- A request payload with a persisted-query marker and no query text. -/
def persistedPayload : JSVal :=
  .obj [("operationName", .str "A"),
    ("extensions", .obj [("persistedQuery",
      .obj [("version", .num "1"), ("sha256Hash", .str "0123abcd")])])]

/-- The JSON text of the batch of the payloads `A` and `B`. -/
def batchRequest : String := (jsonStringify (.arr [payloadA, payloadB])).getD ""

/-- The JSON text of the payload with the persisted-query marker. -/
def persistedRequest : String := (jsonStringify persistedPayload).getD ""

/-- An environment for the concrete examples.  Every function value of the
environment maps its argument `v` to the root object `\x7b viewer: v \x7d`;
`JSON.parse` parses the two request texts above and rejects any other
argument; the engine answers with the root value it was given as `data`;
schema construction returns its argument. -/
def sampleEnv : Env where
  call := fun _ v => .ok (.obj [("viewer", v)])
  toPropertyKey := fun _ => .ok "[object Object]"
  jsonParse := fun text =>
    match text with
    | .str body =>
      if body = persistedRequest then .ok persistedPayload
      else if body = batchRequest then .ok (.arr [payloadA, payloadB])
      else .error (.str "SyntaxError")
    | _ => .error (.str "SyntaxError")
  graphql := fun args => .fulfilled (.obj [("data", args.rootValue)])
  makeExecutableSchema := fun v => .ok v
  addMockFunctionsToSchema := fun schema _ => .ok schema
  buildClientSchema := fun v => .ok v
  printSchema := fun v => .ok v

/-- Options that set nothing but the schema text. -/
def bareOptions : Options :=
  { schema := .str "type Query", name := none, endpoint := none, operations := none,
    mocks := none }

/-- The state before any command. -/
def Cy.empty : Cy := { cells := [], listeners := [], aliases := [] }

/-- Every registered alias names a `currentOps` variable that exists; this
holds before any command and is kept by both commands. -/
def Cy.AliasesBounded (cy : Cy) : Prop :=
  ∀ p ∈ cy.aliases, p.2 < cy.cells.length

instance (cy : Cy) : Decidable cy.AliasesBounded :=
  inferInstanceAs (Decidable (∀ p ∈ cy.aliases, p.2 < cy.cells.length))

/-! ## Notions used in the statements -/

/-- The table after a sequence of updates of the table `T0`. -/
def mergeAll (T0 : Table) (updates : List Table) : Table :=
  updates.foldl setOperations T0

/-- The value a key has after a sequence of updates, in the words of the
specification: the value in the latest update that sets the key, and the
value in the initial table when no update sets it. -/
def latestValue (T0 : Table) (updates : List Table) (k : String) : Option JSVal :=
  match updates.reverse.find? (fun P => decide (k ∈ P.keys)) with
  | some P => P.own k
  | none => T0.own k

/-- The bookkeeping of `Promise.all` over promises that fulfil with the values
`vs`, after those at the indices `done` have fulfilled. -/
def AllInv (vs : List JSVal) (done : List Nat) (st : AllState) : Prop :=
  st.values = (List.range vs.length).map (fun j => if j ∈ done then vs[j]? else none)
  ∧ st.remaining = vs.length - done.length
  ∧ st.settled = if done.length = vs.length then some (.fulfilled (.arr vs)) else none

/-- No `new Error(...)` of this module is the outcome. -/
def NoModuleError {α : Type} (r : Except Thrown α) : Prop :=
  ∀ message, r ≠ .error (.error message)

/-- The JSON text `\x7b"errors":[\x7b"message":"PersistedQueryNotSupported"\x7d]\x7d`. -/
def persistedQueryBody : String :=
  "\x7b\"errors\":[\x7b\"message\":\"PersistedQueryNotSupported\"\x7d]\x7d"

/-! ## Auxiliary facts -/

theorem Run.bind_eq {α β : Type} (r : Run α) (f : α → Run β) : r >>= f = Run.andThen r f := rfl

theorem Run.pure_eq {α : Type} (a : α) : (pure a : Run α) = Run.ret a := rfl

theorem indexOfFrom_ne_iff (needle : List Char) (pos : Nat) (hay : List Char) :
    indexOfFrom needle pos hay ≠ -1 ↔ needle <:+: hay := by
  induction hay generalizing pos with
  | nil =>
    cases needle with
    | nil => simp [indexOfFrom]
    | cons c cs => simp [indexOfFrom]
  | cons c rest ih =>
    unfold indexOfFrom
    by_cases hp : needle.isPrefixOf (c :: rest) = true
    · rw [if_pos hp]
      have h1 : needle <+: c :: rest := List.isPrefixOf_iff_prefix.mp hp
      have h2 : ((pos : Int) ≠ -1) := by omega
      exact ⟨fun _ => h1.isInfix, fun _ => h2⟩
    · rw [if_neg hp, ih, List.infix_cons_iff]
      have h1 : ¬ needle <+: c :: rest := fun h => hp (List.isPrefixOf_iff_prefix.mpr h)
      tauto

theorem indexOf_ne_iff (input endpoint : String) :
    indexOf input endpoint ≠ -1 ↔ endpoint.toList <:+: input.toList :=
  indexOfFrom_ne_iff _ _ _

theorem append_left_cancel (p a b : String) (h : p ++ a = p ++ b) : a = b := by
  have h1 : (p ++ a).data = (p ++ b).data := by rw [h]
  rw [String.data_append, String.data_append] at h1
  exact String.ext (List.append_cancel_left h1)

theorem getAlias_named (o : Options) (n : String) (hn : o.name = some n) (hne : n ≠ "") :
    getAlias o = "mockGraphqlOps:" ++ n := by
  simp [getAlias, optOr, optTruthy, optToString, hn, hne]

theorem getAlias_unnamed (o : Options) (e : String) (hn : o.name = none ∨ o.name = some "")
    (he : o.endpoint = some e) (hne : e ≠ "") : getAlias o = "mockGraphqlOps:" ++ e := by
  rcases hn with hn | hn <;> simp [getAlias, optOr, optTruthy, optToString, hn, he, hne]

theorem getAlias_fallback (o : Options) (hn : o.name = none ∨ o.name = some "")
    (he : o.endpoint = none ∨ o.endpoint = some "") : getAlias o = "mockGraphqlOps" := by
  rcases hn with hn | hn <;> rcases he with he | he <;>
    simp [getAlias, optOr, optTruthy, optToString, hn, he]

/-- A successful `mockGraphql` adds one `currentOps` variable holding the
initial table, one listener with the endpoint defaulted to `/graphql`, and
registers the alias for the new variable. -/
theorem mockGraphql_ok (env : Env) (cy next : Cy) (o : Options)
    (h : mockGraphql env cy o = .ok next) :
    ∃ schema, next = { cells := cy.cells ++ [o.operations.getD []],
                       listeners := cy.listeners
                         ++ [⟨o.endpoint.getD "/graphql", schema, cy.cells.length⟩],
                       aliases := (getAlias o, cy.cells.length) :: cy.aliases } := by
  unfold mockGraphql at h
  cases hs : schemaAsSDL env o.schema with
  | error e => rw [hs] at h; simp [bind, Except.bind] at h
  | ok typeDefs =>
    rw [hs] at h
    simp only [bind, Except.bind] at h
    cases hm : env.makeExecutableSchema (.obj [("typeDefs", typeDefs)]) with
    | error e => rw [hm] at h; simp [external] at h
    | ok schema =>
      rw [hm] at h
      simp only [external] at h
      cases ha : env.addMockFunctionsToSchema schema (o.mocks.getD (.obj [])) with
      | error e => rw [ha] at h; simp at h
      | ok schema2 =>
        rw [ha] at h
        simp only [pure, Except.pure] at h
        injection h with h
        exact ⟨schema2, h.symm⟩

theorem own_eq_none_iff (t : Table) (k : String) : t.own k = none ↔ k ∉ t.keys := by
  induction t with
  | nil => simp [Table.own, Table.keys]
  | cons p rest ih =>
    obtain ⟨k0, v0⟩ := p
    by_cases h : k0 = k
    · simp [Table.own, Table.keys, h]
    · simp only [Table.own, if_neg h, ih, Table.keys, List.map_cons, List.mem_cons, not_or]
      exact ⟨fun hr => ⟨fun hk => h hk.symm, hr⟩, fun hr => hr.2⟩

theorem own_setProperty_same (t : Table) (k : String) (v : JSVal) (hk : k ≠ "__proto__") :
    (setProperty t k v).own k = some v := by
  induction t with
  | nil => simp [setProperty, hk, Table.own]
  | cons p rest ih =>
    obtain ⟨k0, v0⟩ := p
    unfold setProperty
    rw [if_neg hk]
    by_cases h : k0 = k
    · simp [h, Table.own]
    · simp only [if_neg h, Table.own]
      exact ih

theorem own_setProperty_other (t : Table) (k k1 : String) (v : JSVal) (hne : k1 ≠ k) :
    (setProperty t k v).own k1 = t.own k1 := by
  induction t with
  | nil =>
    unfold setProperty
    by_cases hk : k = "__proto__"
    · rw [if_pos hk]
    · rw [if_neg hk]; simp [Table.own, Ne.symm hne]
  | cons p rest ih =>
    obtain ⟨k0, v0⟩ := p
    unfold setProperty
    by_cases hk : k = "__proto__"
    · rw [if_pos hk]
    · rw [if_neg hk]
      by_cases h : k0 = k
      · simp only [if_pos h, Table.own]
        rw [if_neg (Ne.symm hne), if_neg (by rw [h]; exact Ne.symm hne)]
      · simp only [if_neg h, Table.own]
        by_cases h1 : k0 = k1
        · simp [h1]
        · simp only [if_neg h1]
          exact ih

theorem mem_keys_setProperty (t : Table) (k k1 : String) (v : JSVal) (hk : k ≠ "__proto__") :
    k1 ∈ (setProperty t k v).keys ↔ k1 ∈ t.keys ∨ k1 = k := by
  by_cases hne : k1 = k
  · subst hne
    have := own_setProperty_same t k1 v hk
    have h2 : k1 ∈ (setProperty t k1 v).keys := by
      by_contra hc
      rw [(own_eq_none_iff _ _).mpr hc] at this
      exact Option.noConfusion this
    simp [h2]
  · have := own_setProperty_other t k k1 v hne
    have h1 := own_eq_none_iff (setProperty t k v) k1
    have h2 := own_eq_none_iff t k1
    rw [this] at h1
    constructor
    · intro hm
      left
      by_contra hc
      exact (h1.mp (h2.mpr hc)) hm
    · intro hm
      rcases hm with hm | hm
      · by_contra hc
        exact (h2.mp (h1.mpr hc)) hm
      · exact absurd hm hne

theorem nodup_setProperty (t : Table) (k : String) (v : JSVal) (h : t.keys.Nodup) :
    (setProperty t k v).keys.Nodup := by
  induction t with
  | nil =>
    unfold setProperty
    split <;> simp [Table.keys]
  | cons p rest ih =>
    obtain ⟨k0, v0⟩ := p
    by_cases hk : k = "__proto__"
    · unfold setProperty; rw [if_pos hk]; exact h
    · have hrest : (Table.keys rest).Nodup := (List.nodup_cons.mp h).2
      have hnot : k0 ∉ Table.keys rest := (List.nodup_cons.mp h).1
      unfold setProperty
      rw [if_neg hk]
      dsimp only
      by_cases h0 : k0 = k
      · rw [if_pos h0]
        subst h0
        exact h
      · rw [if_neg h0]
        show (k0 :: (setProperty rest k v).keys).Nodup
        refine List.nodup_cons.mpr ⟨?_, ih hrest⟩
        intro hm
        rcases (mem_keys_setProperty rest k k0 v hk).mp hm with hm | hm
        · exact hnot hm
        · exact h0 hm

theorem proto_setProperty (t : Table) (k : String) (v : JSVal) (h : "__proto__" ∉ t.keys) :
    "__proto__" ∉ (setProperty t k v).keys := by
  by_cases hk : k = "__proto__"
  · unfold setProperty; rw [if_pos hk]; exact h
  · intro hm
    rcases (mem_keys_setProperty t k _ v hk).mp hm with hm | hm
    · exact h hm
    · exact hk hm.symm

theorem wellFormed_assignFrom (t s : Table) (h : t.WellFormed) : (assignFrom t s).WellFormed := by
  induction s generalizing t with
  | nil => exact h
  | cons p rest ih =>
    exact ih _ ⟨nodup_setProperty t p.1 p.2 h.1, proto_setProperty t p.1 p.2 h.2⟩

theorem own_assignFrom_other (t s : Table) (k : String) (h : k ∉ s.keys) :
    (assignFrom t s).own k = t.own k := by
  induction s generalizing t with
  | nil => rfl
  | cons p rest ih =>
    have h1 : k ≠ p.1 := fun hc => h (by simp [Table.keys, hc])
    have h2 : k ∉ Table.keys rest := fun hc => h (by simp [Table.keys] at hc ⊢; exact Or.inr hc)
    show (assignFrom (setProperty t p.1 p.2) rest).own k = t.own k
    rw [ih _ h2, own_setProperty_other t p.1 k p.2 h1]

theorem own_assignFrom_source (t s : Table) (k : String) (hs : s.WellFormed) (h : k ∈ s.keys) :
    (assignFrom t s).own k = s.own k := by
  induction s generalizing t with
  | nil => simp [Table.keys] at h
  | cons p rest ih =>
    obtain ⟨k0, v0⟩ := p
    have hnd : (Table.keys rest).Nodup := (List.nodup_cons.mp hs.1).2
    have hnot : k0 ∉ Table.keys rest := (List.nodup_cons.mp hs.1).1
    have hp0 : k0 ≠ "__proto__" := fun hc => hs.2 (by simp [Table.keys, hc])
    have hprest : "__proto__" ∉ Table.keys rest := fun hc => hs.2 (by
      simp only [Table.keys, List.map_cons, List.mem_cons] at hc ⊢; exact Or.inr hc)
    show (assignFrom (setProperty t k0 v0) rest).own k = Table.own ((k0, v0) :: rest) k
    by_cases hk : k0 = k
    · subst hk
      rw [own_assignFrom_other _ _ _ hnot, own_setProperty_same t k0 v0 hp0]
      simp [Table.own]
    · have hin : k ∈ Table.keys rest := by
        simp only [Table.keys, List.map_cons, List.mem_cons] at h
        rcases h with h | h
        · exact absurd h.symm hk
        · exact h
      rw [ih _ ⟨hnd, hprest⟩ hin]
      simp [Table.own, hk]

theorem mem_keys_assignFrom (t s : Table) (k : String) (hs : "__proto__" ∉ s.keys) :
    k ∈ (assignFrom t s).keys ↔ k ∈ t.keys ∨ k ∈ s.keys := by
  induction s generalizing t with
  | nil => simp [assignFrom, Table.keys]
  | cons p rest ih =>
    have hp0 : p.1 ≠ "__proto__" := fun hc => hs (by simp [Table.keys, ← hc])
    have hprest : "__proto__" ∉ Table.keys rest := fun hc => hs (by
      simp only [Table.keys, List.map_cons, List.mem_cons] at hc ⊢; exact Or.inr hc)
    show k ∈ (assignFrom (setProperty t p.1 p.2) rest).keys ↔ _
    rw [ih _ hprest, mem_keys_setProperty t p.1 k p.2 hp0]
    simp only [Table.keys, List.map_cons, List.mem_cons]
    tauto

theorem wellFormed_setOperations (T P : Table) : (setOperations T P).WellFormed :=
  wellFormed_assignFrom _ P (wellFormed_assignFrom [] T ⟨List.nodup_nil, by simp [Table.keys]⟩)

theorem own_assignFrom_nil (T : Table) (hT : T.WellFormed) (k : String) :
    (assignFrom [] T).own k = T.own k := by
  by_cases h : k ∈ T.keys
  · exact own_assignFrom_source [] T k hT h
  · rw [own_assignFrom_other [] T k h, (own_eq_none_iff T k).mpr h]
    rfl

theorem own_setOperations_other (X P : Table) (k : String) (hX : X.WellFormed)
    (hk : k ∉ P.keys) : (setOperations X P).own k = X.own k := by
  show (assignFrom (assignFrom [] X) P).own k = X.own k
  rw [own_assignFrom_other _ P k hk, own_assignFrom_nil X hX k]

theorem own_setOperations_source (X P : Table) (k : String) (hP : P.WellFormed)
    (hk : k ∈ P.keys) : (setOperations X P).own k = P.own k :=
  own_assignFrom_source _ P k hP hk

theorem wellFormed_mergeAll (T0 : Table) (updates : List Table) (h0 : T0.WellFormed) :
    (mergeAll T0 updates).WellFormed := by
  induction updates using List.reverseRecOn with
  | nil => exact h0
  | append_singleton init P _ =>
    unfold mergeAll
    rw [List.foldl_append]
    exact wellFormed_setOperations _ P

theorem own_mergeAll (T0 : Table) (updates : List Table) (h0 : T0.WellFormed)
    (hu : ∀ P ∈ updates, P.WellFormed) (k : String) :
    (mergeAll T0 updates).own k = latestValue T0 updates k := by
  induction updates using List.reverseRecOn with
  | nil => rfl
  | append_singleton init P ih =>
    have hP : P.WellFormed := hu P (by simp)
    have hinit : ∀ Q ∈ init, Q.WellFormed := fun Q hQ => hu Q (by simp [hQ])
    have hstep : mergeAll T0 (init ++ [P]) = setOperations (mergeAll T0 init) P := by
      unfold mergeAll
      rw [List.foldl_append]
      rfl
    rw [hstep]
    unfold latestValue
    rw [List.reverse_append]
    by_cases hk : k ∈ P.keys
    · rw [own_setOperations_source _ P k hP hk]
      simp [List.find?, hk]
    · rw [own_setOperations_other _ P k (wellFormed_mergeAll T0 init h0) hk, ih hinit]
      simp [List.find?, hk, latestValue]

theorem mockGraphqlOps_resolved (c : Cy) (u : Options) (n : Nat)
    (hres : c.resolve (getAlias u) = some n) :
    mockGraphqlOps c u
      = .ok { c with
          cells := c.cells.set n (setOperations (c.cells.getD n []) (u.operations.getD [])) } := by
  simp [mockGraphqlOps, hres]

theorem mockGraphqlOpsAll_fold (updates : List Options) (c : Cy) (a : String) (n : Nat)
    (hres : c.resolve a = some n) (hn : n < c.cells.length)
    (halias : ∀ u ∈ updates, getAlias u = a) :
    mockGraphqlOpsAll c updates
      = .ok { c with
          cells := c.cells.set n
            (mergeAll (c.cells.getD n []) (updates.map (fun u => u.operations.getD []))) } := by
  induction updates generalizing c with
  | nil =>
    simp only [mockGraphqlOpsAll, List.map_nil, mergeAll, List.foldl_nil]
    congr 1
    have : c.cells.set n (c.cells.getD n []) = c.cells := by
      apply List.ext_getElem
      · simp
      · intro i h1 h2
        by_cases hi : n = i
        · subst hi; simp [List.getD_eq_getElem?_getD, h2]
        · simp [List.getElem_set, hi]
    rw [this]
  | cons u rest ih =>
    have hu : getAlias u = a := halias u (by simp)
    unfold mockGraphqlOpsAll
    rw [mockGraphqlOps_resolved c u n (by rw [hu]; exact hres)]
    simp only
    rw [ih { c with
          cells := c.cells.set n (setOperations (c.cells.getD n []) (u.operations.getD [])) }
        hres (by simpa using hn) (fun v hv => halias v (by simp [hv]))]
    simp only [List.set_set, List.map_cons, mergeAll, List.foldl_cons]
    congr 3
    simp [List.getD_eq_getElem?_getD, hn]

theorem lookupAlias_mem (key : String) (aliases : List (String × Nat)) (m : Nat)
    (h : lookupAlias key aliases = some m) : (key, m) ∈ aliases := by
  induction aliases with
  | nil => simp [lookupAlias] at h
  | cons p rest ih =>
    obtain ⟨k, c⟩ := p
    unfold lookupAlias at h
    by_cases hk : k = key
    · rw [if_pos hk] at h
      injection h with h
      simp [hk, h]
    · rw [if_neg hk] at h
      exact List.mem_cons_of_mem _ (ih h)

theorem aliasesBounded_empty : Cy.empty.AliasesBounded := by
  intro p hp
  simp [Cy.empty] at hp

theorem aliasesBounded_mockGraphql (env : Env) (cy next : Cy) (o : Options)
    (hb : cy.AliasesBounded) (h : mockGraphql env cy o = .ok next) : next.AliasesBounded := by
  obtain ⟨schema, rfl⟩ := mockGraphql_ok env cy next o h
  intro p hp
  simp only [List.mem_cons] at hp
  simp only [List.length_append, List.length_singleton]
  rcases hp with hp | hp
  · subst hp; simp
  · have := hb p hp
    omega

theorem aliasesBounded_mockGraphqlOps (cy next : Cy) (o : Options)
    (hb : cy.AliasesBounded) (h : mockGraphqlOps cy o = .ok next) : next.AliasesBounded := by
  unfold mockGraphqlOps at h
  cases hr : cy.resolve (getAlias o) with
  | none => rw [hr] at h; simp at h
  | some cell =>
    rw [hr] at h
    simp only [Except.ok.injEq] at h
    subst h
    intro p hp
    simpa using hb p hp

theorem bounded_nodup_length (n : Nat) (done : List Nat) (hnd : done.Nodup)
    (hb : ∀ i ∈ done, i < n) : done.length ≤ n := by
  have hsub : done ⊆ List.range n := fun i hi => List.mem_range.mpr (hb i hi)
  have := (List.subperm_of_subset hnd hsub).length_le
  simpa using this

theorem bounded_nodup_full (n : Nat) (done : List Nat) (hnd : done.Nodup)
    (hb : ∀ i ∈ done, i < n) (hlen : done.length = n) : ∀ j, j < n → j ∈ done := by
  intro j hj
  have hsub : done ⊆ List.range n := fun i hi => List.mem_range.mpr (hb i hi)
  have hperm : done.Perm (List.range n) :=
    (List.subperm_of_subset hnd hsub).perm_of_length_le (by simp [hlen])
  exact hperm.mem_iff.mpr (List.mem_range.mpr hj)

theorem slots_full (vs : List JSVal) (done : List Nat) (hall : ∀ j, j < vs.length → j ∈ done) :
    ((List.range vs.length).map (fun j => if j ∈ done then vs[j]? else none)).map
      (fun slot => slot.getD .undefined) = vs := by
  apply List.ext_getElem
  · simp
  · intro j h1 h2
    simp only [List.length_map, List.length_range] at h1
    simp [hall j h1, h2]

theorem promiseAllStep_inv (vs : List JSVal) (done : List Nat) (st : AllState) (i : Nat)
    (hinv : AllInv vs done st) (hi : i ∉ done) (hlt : i < vs.length) (hnd : done.Nodup)
    (hb : ∀ k ∈ done, k < vs.length) :
    AllInv vs (done ++ [i]) (promiseAllStep (vs.map .fulfilled) st i) := by
  obtain ⟨hv, hr, hs⟩ := hinv
  have hnd2 : (done ++ [i]).Nodup := by
    rw [List.nodup_append]
    refine ⟨hnd, List.nodup_singleton i, ?_⟩
    intro a ha hb2
    rw [List.mem_singleton] at hb2
    subst hb2
    exact hi ha
  have hb2 : ∀ k ∈ done ++ [i], k < vs.length := by
    intro k hk
    rcases List.mem_append.mp hk with hk | hk
    · exact hb k hk
    · rw [List.mem_singleton] at hk; subst hk; exact hlt
  have hlen : done.length + 1 ≤ vs.length := by
    have := bounded_nodup_length vs.length (done ++ [i]) hnd2 hb2
    simpa using this
  have h1 : (vs.map PromiseState.fulfilled).get? i = some (.fulfilled vs[i]) := by
    simp [hlt]
  have h2 : st.values.get? i = some none := by
    rw [hv]; simp [hlt, hi]
  have hset : st.values.set i (some vs[i])
      = (List.range vs.length).map (fun j => if j ∈ done ++ [i] then vs[j]? else none) := by
    rw [hv]
    apply List.ext_getElem
    · simp
    · intro j hj1 hj2
      simp only [List.length_map, List.length_range] at hj2
      by_cases hji : i = j
      · subst hji; simp
      · simp [List.getElem_set, hji, Ne.symm hji]
  have hsettled : st.settled = none := by
    rw [hs, if_neg]; omega
  unfold promiseAllStep
  rw [h1, h2]
  simp only
  by_cases hlast : st.remaining - 1 = 0
  · rw [if_pos hlast]
    have hfull : (done ++ [i]).length = vs.length := by
      simp only [List.length_append, List.length_singleton]; omega
    refine ⟨hset, ?_, ?_⟩
    · simp only [List.length_append, List.length_singleton]; omega
    · simp only [hsettled, hfull, if_true, Option.orElse]
      rw [hset, slots_full vs (done ++ [i]) (bounded_nodup_full _ _ hnd2 hb2 hfull)]
  · rw [if_neg hlast]
    refine ⟨hset, ?_, ?_⟩
    · simp only [List.length_append, List.length_singleton]; omega
    · simp only [hsettled]
      rw [if_neg]
      simp only [List.length_append, List.length_singleton]; omega

theorem promiseAll_foldl_inv (vs : List JSVal) (rest done : List Nat) (st : AllState)
    (hinv : AllInv vs done st) (hnd : (done ++ rest).Nodup)
    (hb : ∀ k ∈ done ++ rest, k < vs.length) :
    AllInv vs (done ++ rest) (rest.foldl (promiseAllStep (vs.map .fulfilled)) st) := by
  induction rest generalizing done st with
  | nil => simpa using hinv
  | cons i rest ih =>
    have hi : i ∉ done := by
      intro hmem
      rw [List.nodup_append] at hnd
      exact hnd.2.2 hmem (List.mem_cons_self i rest)
    have hnd1 : done.Nodup := (List.nodup_append.mp hnd).1
    have hstep := promiseAllStep_inv vs done st i hinv hi
      (hb i (by simp)) hnd1 (fun k hk => hb k (by simp [hk]))
    have := ih (done ++ [i]) _ hstep (by simpa using hnd) (by simpa using hb)
    simpa using this

/-- When every promise fulfils, `Promise.all` fulfils with the values in the
order of the promises, in whatever order they fulfilled. -/
theorem promiseAll_fulfilled (vs : List JSVal) (order : List Nat)
    (horder : order.Perm (List.range vs.length)) :
    promiseAll (vs.map .fulfilled) order = .fulfilled (.arr vs) := by
  have hstart : AllInv vs []
      { values := List.replicate (vs.map PromiseState.fulfilled).length none,
        remaining := (vs.map PromiseState.fulfilled).length,
        settled := if (vs.map PromiseState.fulfilled).length = 0
          then some (.fulfilled (.arr [])) else none } := by
    refine ⟨?_, by simp, ?_⟩
    · apply List.ext_getElem <;> simp
    · cases vs <;> simp
  have hnd : order.Nodup := horder.nodup_iff.mpr (List.nodup_range _)
  have hb : ∀ k ∈ order, k < vs.length := fun k hk =>
    List.mem_range.mp (horder.mem_iff.mp hk)
  have hfinal := promiseAll_foldl_inv vs order [] _ hstart (by simpa using hnd) (by simpa using hb)
  obtain ⟨_, _, hs⟩ := hfinal
  have hlen : order.length = vs.length := by simpa using horder.length_eq
  unfold promiseAll
  simp only [List.nil_append] at hs
  dsimp only
  rw [hs, if_pos hlen]
  rfl

theorem Run.perform_andThen_ok {α β : Type} (e : Event) (a : α) (f : α → Run β) :
    (Run.perform e (.ok a)).andThen f = ⟨e :: (f a).trace, (f a).result⟩ := rfl

theorem Run.andThen_result_ok {α β : Type} (r : Run α) (f : α → Run β) (a : α)
    (h : r.result = .ok a) : (Run.andThen r f).result = (f a).result := by
  simp [Run.andThen, h]

theorem arrayMap_fulfilled (f : JSVal → Run (PromiseState JSVal)) (items : List JSVal)
    (h : ∀ p ∈ items, ∃ r, (f p).result = .ok (.fulfilled r)) :
    ∃ results, List.Forall₂ (fun p r => (f p).result = .ok (.fulfilled r)) items results
      ∧ (arrayMap f items).result = .ok (results.map .fulfilled) := by
  induction items with
  | nil => exact ⟨[], List.Forall₂.nil, rfl⟩
  | cons p rest ih =>
    obtain ⟨r, hr⟩ := h p (List.mem_cons_self p rest)
    obtain ⟨rs, hrs, hres⟩ := ih (fun q hq => h q (List.mem_cons_of_mem p hq))
    refine ⟨r :: rs, List.Forall₂.cons hr hrs, ?_⟩
    unfold arrayMap
    rw [Run.bind_eq, Run.andThen_result_ok _ _ _ hr, Run.bind_eq,
      Run.andThen_result_ok _ _ _ hres]
    rfl

theorem matched_condition (endpoint url : String) (init : JSVal)
    (hurl : endpoint.toList <:+: url.toList) (hinit : init.truthy = true)
    (hpost : init.field "method" = .str "POST") :
    (indexOf url endpoint != -1 && init.truthy
      && (init.field "method").strictEqString "POST") = true := by
  have h1 : indexOf url endpoint ≠ -1 := (indexOf_ne_iff url endpoint).mpr hurl
  simp [h1, hinit, hpost, JSVal.strictEqString]

theorem external_noModuleError {α : Type} (x : Except JSVal α) : NoModuleError (external x) := by
  intro m
  cases x <;> simp [external]

theorem callFunction_noModuleError (env : Env) (id : String) (v : JSVal) :
    NoModuleError (callFunction env id v) := by
  intro m
  unfold callFunction
  split
  · simp
  · exact external_noModuleError _ m

theorem andThen_noModuleError {α β : Type} (r : Run α) (f : α → Run β)
    (hr : NoModuleError r.result) (hf : ∀ a, NoModuleError (f a).result) :
    NoModuleError (Run.andThen r f).result := by
  intro m
  unfold Run.andThen
  cases h : r.result with
  | ok a => simpa using hf a m
  | error e =>
    simp only
    intro heq
    apply hr m
    rw [h]
    injection heq with h1
    rw [h1]

theorem getRootValue_noModuleError (env : Env) (operations : Table) (operationName vars : JSVal) :
    NoModuleError (getRootValue env operations operationName vars).result := by
  intro m
  unfold getRootValue
  split
  · simp [Run.ret]
  · split
    · rename_i e he
      simp only [Run.throw]
      intro heq
      have hk : NoModuleError (propertyKey env operationName) := by
        cases operationName <;> simp [propertyKey, NoModuleError] <;>
          exact fun m => external_noModuleError _ m
      apply hk m
      rw [he]
      injection heq with h1
      rw [h1]
    · split
      · simp [Run.ret]
      · dsimp only
        split
        · exact callFunction_noModuleError _ _ _ m
        · simp [Run.ret]

theorem mockGraphqlResponse_noModuleError (env : Env) (schema : JSVal) (currentOps : Table)
    (payload : JSVal) :
    NoModuleError (mockGraphqlResponse env schema currentOps payload).result := by
  unfold mockGraphqlResponse
  split
  · intro m; simp [Run.throw]
  · split
    · intro m; simp [Run.ret]
    · rw [Run.bind_eq]
      apply andThen_noModuleError
      · exact getRootValue_noModuleError _ _ _ _
      · intro a m; simp [Run.perform]

theorem arrayMap_noModuleError (f : JSVal → Run (PromiseState JSVal))
    (hf : ∀ p, NoModuleError (f p).result) (items : List JSVal) :
    NoModuleError (arrayMap f items).result := by
  induction items with
  | nil => intro m; simp [arrayMap, Run.ret]
  | cons p rest ih =>
    unfold arrayMap
    rw [Run.bind_eq]
    apply andThen_noModuleError _ _ (hf p)
    intro a
    rw [Run.bind_eq]
    apply andThen_noModuleError _ _ ih
    intro b m
    simp [Run.pure_eq, Run.ret]

/-- C1. For a string URL that does not contain the endpoint, or an `init` that
is absent (or otherwise falsy), or an `init.method` other than the string
`"POST"`, the patched fetch makes exactly one external call, the call
`originalFetch(input, init)` with the same two arguments, and returns what
that call evaluated to: the body is not parsed and the engine is not called. -/
theorem fetch_forwards_unmatched {ρ : Type} (env : Env) (endpoint : String) (schema : JSVal)
    (currentOps : Table) (originalFetch : JSVal → JSVal → ρ) (order : List Nat) (url : String)
    (init : JSVal)
    (h : ¬ endpoint.toList <:+: url.toList ∨ init.truthy = false
      ∨ init.field "method" ≠ .str "POST") :
    fetch env endpoint schema currentOps originalFetch order (.str url) init
      = ⟨[.originalFetch (.str url) init], .ok (.original (originalFetch (.str url) init))⟩ := by
  have hcond : (indexOf url endpoint != -1 && init.truthy
      && (init.field "method").strictEqString "POST") = false := by
    rcases h with h | h | h
    · have : indexOf url endpoint = -1 := by
        by_contra hne
        exact h ((indexOf_ne_iff url endpoint).mp hne)
      simp [this]
    · simp [h]
    · have : (init.field "method").strictEqString "POST" = false := by
        cases hm : init.field "method" <;> simp [JSVal.strictEqString]
        rename_i s
        intro hs
        exact h (by rw [hm, hs])
      simp [this]
  simp only [fetch, hcond]
  rfl

/-- C1, at concrete inputs: a GET request to the endpoint, a POST to another
URL, and a call without `init` are all forwarded. -/
theorem fetch_forwards_unmatched_witness :
    fetch sampleEnv "/graphql" .null [] (fun _ _ => (7 : Nat)) []
        (.str "http://localhost/graphql") (.obj [("method", .str "GET")])
      = ⟨[.originalFetch (.str "http://localhost/graphql") (.obj [("method", .str "GET")])],
          .ok (.original 7)⟩
    ∧ fetch sampleEnv "/graphql" .null [] (fun _ _ => (7 : Nat)) []
        (.str "http://localhost/rest") (.obj [("method", .str "POST")])
      = ⟨[.originalFetch (.str "http://localhost/rest") (.obj [("method", .str "POST")])],
          .ok (.original 7)⟩
    ∧ fetch sampleEnv "/graphql" .null [] (fun _ _ => (7 : Nat)) []
        (.str "http://localhost/graphql") .undefined
      = ⟨[.originalFetch (.str "http://localhost/graphql") .undefined], .ok (.original 7)⟩ :=
  ⟨fetch_forwards_unmatched sampleEnv "/graphql" .null [] (fun _ _ => (7 : Nat)) []
      "http://localhost/graphql" (.obj [("method", .str "GET")])
      (Or.inr (Or.inr (by simp [JSVal.field, Table.get, Table.own]))),
   fetch_forwards_unmatched sampleEnv "/graphql" .null [] (fun _ _ => (7 : Nat)) []
      "http://localhost/rest" (.obj [("method", .str "POST")]) (Or.inl (by decide)),
   fetch_forwards_unmatched sampleEnv "/graphql" .null [] (fun _ _ => (7 : Nat)) []
      "http://localhost/graphql" .undefined (Or.inr (Or.inl rfl))⟩

/-- C2, as amended. For a non-empty operation name that is an own key of the
table with a truthy entry, `getRootValue` returns the entry itself, calling
nothing, when the entry is not a function, and the result of calling the entry
with `variables`, and nothing else, when it is a function. -/
theorem getRootValue_present_truthy (env : Env) (ops : Table) (n : String) (vars entry : JSVal)
    (hn : n ≠ "") (hown : ops.own n = some entry) (ht : entry.truthy = true) :
    (entry.isFunction = false → getRootValue env ops (.str n) vars = ⟨[], .ok entry⟩)
    ∧ (∀ id, entry = .fn id →
      getRootValue env ops (.str n) vars = ⟨[.call id vars], callFunction env id vars⟩) := by
  have hget : ops.get n = entry := by simp [Table.get, hown]
  constructor
  · intro hf
    cases entry <;>
      simp_all [getRootValue, propertyKey, JSVal.truthy, JSVal.isFunction, Run.ret]
  · intro id hid
    subst hid
    simp [getRootValue, propertyKey, JSVal.truthy, hn, hget, Run.perform]

/-- C2, as amended, at concrete tables: a static entry and a function entry. -/
theorem getRootValue_present_truthy_witness :
    getRootValue sampleEnv [("UserQuery", .obj [("viewer", .null)])] (.str "UserQuery") .undefined
      = ⟨[], .ok (.obj [("viewer", .null)])⟩
    ∧ getRootValue sampleEnv [("UserQuery", .fn "byId")] (.str "UserQuery") (.num "5")
      = ⟨[.call "byId" (.num "5")], .ok (.obj [("viewer", .num "5")])⟩ :=
  ⟨(getRootValue_present_truthy sampleEnv [("UserQuery", .obj [("viewer", .null)])] "UserQuery"
      .undefined (.obj [("viewer", .null)]) (by decide) rfl rfl).1 rfl,
   (getRootValue_present_truthy sampleEnv [("UserQuery", .fn "byId")] "UserQuery" (.num "5")
      (.fn "byId") (by decide) rfl rfl).2 "byId" rfl⟩

/-- C2 as stated fails: the key `UserQuery` is present with the entry `null`,
and the key `""` is present with an object entry, yet in both cases
`getRootValue` returns a new empty object instead of the entry. -/
theorem getRootValue_present_counterexample :
    (Table.own [("UserQuery", JSVal.null)] "UserQuery" = some .null
      ∧ getRootValue sampleEnv [("UserQuery", .null)] (.str "UserQuery") .undefined
        = ⟨[], .ok (.obj [])⟩
      ∧ JSVal.obj [] ≠ .null)
    ∧ (Table.own [("", JSVal.obj [("viewer", .null)])] "" = some (.obj [("viewer", .null)])
      ∧ getRootValue sampleEnv [("", .obj [("viewer", .null)])] (.str "") .undefined
        = ⟨[], .ok (.obj [])⟩
      ∧ JSVal.obj [] ≠ .obj [("viewer", .null)]) :=
  ⟨⟨rfl, rfl, by simp⟩, ⟨rfl, rfl, by simp⟩⟩

/-- With a missing, empty or otherwise falsy operation name, or a name that is
neither an own key of the table nor a property of `Object.prototype`,
`getRootValue` returns an empty object and calls nothing. -/
theorem getRootValue_absent (env : Env) (ops : Table) (operationName vars : JSVal)
    (h : operationName.truthy = false
      ∨ ∃ n, operationName = .str n ∧ ops.own n = none ∧ objectPrototype.own n = none
          ∧ n ≠ "__proto__") :
    getRootValue env ops operationName vars = ⟨[], .ok (.obj [])⟩ := by
  rcases h with h | ⟨n, h, h1, h2, h3⟩
  · simp [getRootValue, h, Run.ret]
  · subst h
    by_cases hn : n = ""
    · subst hn; rfl
    · simp [getRootValue, propertyKey, JSVal.truthy, hn, Table.get, h1, h2, h3, Run.ret]

/-- C3, at the failing input. For the table `\x7b UserQuery: \x7b viewer: null \x7d \x7d`
and the operation name `toString`, which is not a key of the table,
`getRootValue` finds the function inherited from `Object.prototype`, calls it
with `variables` and returns the string the call gives, instead of returning an
empty object without a call. -/
theorem getRootValue_inherited_name (env : Env) (vars : JSVal) :
    "toString" ∉ Table.keys [("UserQuery", .obj [("viewer", .null)])]
    ∧ getRootValue env [("UserQuery", .obj [("viewer", .null)])] (.str "toString") vars
      = ⟨[.call "Object.prototype.toString" vars], .ok (.str "[object Undefined]")⟩
    ∧ getRootValue env [("UserQuery", .obj [("viewer", .null)])] (.str "toString") vars
      ≠ ⟨[], .ok (.obj [])⟩ :=
  ⟨by decide, rfl, by
    have h : getRootValue env [("UserQuery", .obj [("viewer", .null)])] (.str "toString") vars
        = ⟨[.call "Object.prototype.toString" vars], .ok (.str "[object Undefined]")⟩ := rfl
    rw [h]
    simp⟩

/-- C4. For a POST to the endpoint whose parsed body is a single payload
carrying a persisted-query marker (`payload.extensions.persistedQuery` is
there, that is truthy), the patched fetch returns a promise fulfilled with a
response whose body is exactly the persisted-query error text.  The result is
the same for every operation table and every `query`, `variables` and
`operationName` of the payload, and the only external call is `JSON.parse`:
the engine is not called, and no table entry is called as `getRootValue`
would do. -/
theorem fetch_persisted_query {ρ : Type} (env : Env) (endpoint : String) (schema : JSVal)
    (currentOps : Table) (originalFetch : JSVal → JSVal → ρ) (order : List Nat) (url : String)
    (init payload : JSVal)
    (hurl : endpoint.toList <:+: url.toList) (hinit : init.truthy = true)
    (hpost : init.field "method" = .str "POST")
    (hparse : env.jsonParse (init.field "body") = .ok payload)
    (hsingle : payload.isArray = false)
    (hext : (payload.field "extensions").truthy = true)
    (hmarker : ((payload.field "extensions").field "persistedQuery").truthy = true) :
    fetch env endpoint schema currentOps originalFetch order (.str url) init
      = ⟨[.jsonParse (init.field "body")],
          .ok (.promise (.fulfilled ⟨some persistedQueryBody⟩))⟩ := by
  have hcond := matched_condition endpoint url init hurl hinit hpost
  obtain ⟨props, rfl⟩ : ∃ props, payload = .obj props := by
    cases payload with
    | obj props => exact ⟨props, rfl⟩
    | _ => simp [JSVal.field, JSVal.truthy] at hext
  have hresp : mockGraphqlResponse env schema currentOps (.obj props)
      = Run.ret (.fulfilled persistedQueryNotSupported) := by
    unfold mockGraphqlResponse
    simp [JSVal.isNullish, hext, hmarker]
  simp only [fetch, hcond, if_true, hparse, external, Run.bind_eq, Run.perform_andThen_ok,
    hresp]
  rfl

/-- C4, at a concrete request: the body is the JSON text of a payload with a
persisted-query marker, and the table has an entry for the operation it
names. -/
theorem fetch_persisted_query_witness :
    fetch sampleEnv "/graphql" .null [("A", .fn "byId")] (fun _ _ => (7 : Nat)) []
        (.str "http://localhost/graphql")
        (.obj [("method", .str "POST"), ("body", .str persistedRequest)])
      = ⟨[.jsonParse (.str persistedRequest)],
          .ok (.promise (.fulfilled ⟨some persistedQueryBody⟩))⟩ :=
  fetch_persisted_query sampleEnv "/graphql" .null [("A", .fn "byId")] (fun _ _ => (7 : Nat)) []
    "http://localhost/graphql" (.obj [("method", .str "POST"), ("body", .str persistedRequest)])
    persistedPayload (by decide) rfl rfl rfl rfl rfl rfl

/-- C5. For a POST to the endpoint whose parsed body is an array of payloads
each of which resolves, and for every order in which the resolutions complete,
the patched fetch returns a promise fulfilled with a response whose body is
`JSON.stringify` of an array with one result per payload, the i-th result
being what `mockGraphqlResponse` resolves to for the i-th payload on its own.
For a parsed body that is not an array and resolves to a result, the body is
`JSON.stringify` of that result, without an enclosing array. -/
theorem fetch_batch_keeps_order {ρ : Type} (env : Env) (endpoint : String) (schema : JSVal)
    (currentOps : Table) (originalFetch : JSVal → JSVal → ρ) (order : List Nat) (url : String)
    (init : JSVal)
    (hurl : endpoint.toList <:+: url.toList) (hinit : init.truthy = true)
    (hpost : init.field "method" = .str "POST") :
    (∀ items : List JSVal, env.jsonParse (init.field "body") = .ok (.arr items) →
      (∀ p ∈ items, ∃ r,
        (mockGraphqlResponse env schema currentOps p).result = .ok (.fulfilled r)) →
      order.Perm (List.range items.length) →
      ∃ results : List JSVal,
        results.length = items.length
        ∧ List.Forall₂
            (fun p r => (mockGraphqlResponse env schema currentOps p).result = .ok (.fulfilled r))
            items results
        ∧ (fetch env endpoint schema currentOps originalFetch order (.str url) init).result
            = .ok (.promise (.fulfilled ⟨jsonStringify (.arr results)⟩)))
    ∧ (∀ payload r : JSVal, env.jsonParse (init.field "body") = .ok payload →
      payload.isArray = false →
      (mockGraphqlResponse env schema currentOps payload).result = .ok (.fulfilled r) →
      (fetch env endpoint schema currentOps originalFetch order (.str url) init).result
        = .ok (.promise (.fulfilled ⟨jsonStringify r⟩))) := by
  have hcond := matched_condition endpoint url init hurl hinit hpost
  constructor
  · intro items hparse hall horder
    obtain ⟨results, hres, hmap⟩ := arrayMap_fulfilled _ items hall
    have hlen : results.length = items.length := hres.length_eq.symm
    refine ⟨results, hlen, hres, ?_⟩
    simp only [fetch, hcond, if_true, hparse, external, Run.bind_eq, Run.perform_andThen_ok]
    rw [Run.andThen_result_ok _ _ _ hmap]
    simp only [Run.pure_eq, Run.andThen, Run.ret]
    rw [promiseAll_fulfilled results order (by rw [hlen]; exact horder)]
    rfl
  · intro payload r hparse hsingle hr
    simp only [fetch, hcond, if_true, hparse, external, Run.bind_eq, Run.perform_andThen_ok]
    cases payload <;> simp [JSVal.isArray] at hsingle <;>
      (simp only []; rw [Run.andThen_result_ok _ _ _ hr]; rfl)

/-- C5, at concrete requests: the batch of the payloads `A` and `B`, the second
resolution completing first, whose response body is
`[\x7b"data":"first"\x7d,\x7b"data":"second"\x7d]`; and a single payload. -/
theorem fetch_batch_keeps_order_witness :
    (∃ results : List JSVal,
      results.length = 2
      ∧ List.Forall₂
          (fun p r => (mockGraphqlResponse sampleEnv .null
            [("A", .str "first"), ("B", .str "second")] p).result = .ok (.fulfilled r))
          [payloadA, payloadB] results
      ∧ (fetch sampleEnv "/graphql" .null [("A", .str "first"), ("B", .str "second")]
          (fun _ _ => (7 : Nat)) [1, 0] (.str "/graphql")
          (.obj [("method", .str "POST"), ("body", .str batchRequest)])).result
        = .ok (.promise (.fulfilled ⟨jsonStringify (.arr results)⟩)))
    ∧ (fetch sampleEnv "/graphql" .null [("A", .str "first"), ("B", .str "second")]
        (fun _ _ => (7 : Nat)) [1, 0] (.str "/graphql")
        (.obj [("method", .str "POST"), ("body", .str batchRequest)])).result
      = .ok (.promise (.fulfilled
          ⟨some "[\x7b\"data\":\"first\"\x7d,\x7b\"data\":\"second\"\x7d]"⟩))
    ∧ (fetch sampleEnv "/graphql" .null [("A", .str "first"), ("B", .str "second")]
        (fun _ _ => (7 : Nat)) [] (.str "/graphql")
        (.obj [("method", .str "POST"), ("body", .str persistedRequest)])).result
      = .ok (.promise (.fulfilled ⟨jsonStringify persistedQueryNotSupported⟩)) :=
  ⟨(fetch_batch_keeps_order sampleEnv "/graphql" .null
      [("A", .str "first"), ("B", .str "second")] (fun _ _ => (7 : Nat)) [1, 0] "/graphql"
      (.obj [("method", .str "POST"), ("body", .str batchRequest)]) (by decide) rfl rfl).1
      [payloadA, payloadB] rfl
      (by
        intro p hp
        simp only [List.mem_cons, List.mem_singleton, List.not_mem_nil, or_false] at hp
        rcases hp with rfl | rfl
        · exact ⟨_, rfl⟩
        · exact ⟨_, rfl⟩)
      (by decide),
   rfl,
   (fetch_batch_keeps_order sampleEnv "/graphql" .null
      [("A", .str "first"), ("B", .str "second")] (fun _ _ => (7 : Nat)) [] "/graphql"
      (.obj [("method", .str "POST"), ("body", .str persistedRequest)]) (by decide) rfl rfl).2
      persistedPayload persistedQueryNotSupported rfl rfl rfl⟩

/-- C7. Called with an input that is not a string, the patched fetch throws
the module's error at once, whatever `init` is: nothing is returned (so no
promise) and the trace is empty, so neither the original fetch nor the engine
(nor any other collaborator) was called.  Called with a string, it never
throws that error. -/
theorem fetch_throws_iff_not_string {ρ : Type} (env : Env) (endpoint : String) (schema : JSVal)
    (currentOps : Table) (originalFetch : JSVal → JSVal → ρ) (order : List Nat)
    (input init : JSVal) :
    (input.isString = false →
      fetch env endpoint schema currentOps originalFetch order input init
        = ⟨[], .error (.error unsupportedMessage)⟩)
    ∧ (input.isString = true →
      ∀ message, (fetch env endpoint schema currentOps originalFetch order input init).result
        ≠ .error (.error message)) := by
  constructor
  · intro h
    cases input <;> simp [JSVal.isString] at h <;> rfl
  · intro h
    cases input <;> simp [JSVal.isString] at h
    rename_i url
    show NoModuleError _
    unfold fetch
    simp only
    split
    · rw [Run.bind_eq]
      apply andThen_noModuleError
      · exact external_noModuleError _
      · intro payload
        split
        · rw [Run.bind_eq]
          apply andThen_noModuleError
          · exact arrayMap_noModuleError _ (mockGraphqlResponse_noModuleError _ _ _) _
          · intro a m; simp [Run.pure_eq, Run.bind_eq, Run.ret, Run.andThen]
        · rw [Run.bind_eq]
          apply andThen_noModuleError
          · exact mockGraphqlResponse_noModuleError _ _ _ _
          · intro a m; simp [Run.pure_eq, Run.ret]
    · intro m; simp [Run.perform]

/-- C7, at concrete inputs: an object input throws the module's error with an
empty trace; a string input whose body is not JSON ends in the error raised
by `JSON.parse`, not in the module's error. -/
theorem fetch_throws_iff_not_string_witness :
    fetch sampleEnv "/graphql" .null [] (fun _ _ => (7 : Nat)) [] (.obj [("url", .str "/graphql")])
        (.obj [("method", .str "POST")])
      = ⟨[], .error (.error unsupportedMessage)⟩
    ∧ (fetch sampleEnv "/graphql" .null [] (fun _ _ => (7 : Nat)) [] (.str "/graphql")
        (.obj [("method", .str "POST"), ("body", .str "oops")])).result
      ≠ .error (.error unsupportedMessage) :=
  ⟨(fetch_throws_iff_not_string sampleEnv "/graphql" .null [] (fun _ _ => (7 : Nat)) []
      (.obj [("url", .str "/graphql")]) (.obj [("method", .str "POST")])).1 rfl,
   (fetch_throws_iff_not_string sampleEnv "/graphql" .null [] (fun _ _ => (7 : Nat)) []
      (.str "/graphql") (.obj [("method", .str "POST"), ("body", .str "oops")])).2 rfl
      unsupportedMessage⟩

/-- C8. `getAlias` gives `mockGraphqlOps:` followed by a non-empty `name`
whatever the endpoint is, `mockGraphqlOps:` followed by a non-empty `endpoint`
when the name is missing or empty, and `mockGraphqlOps` when both are missing
or empty.  Two configurations with different non-empty names, or both without
a name and with different non-empty endpoints, get different aliases; and two
setups with different aliases register different `currentOps` variables, each
alias resolving to its own. -/
theorem getAlias_cases_and_separation :
    (∀ (o : Options) (n : String), o.name = some n → n ≠ "" →
      getAlias o = "mockGraphqlOps:" ++ n)
    ∧ (∀ (o : Options) (e : String), (o.name = none ∨ o.name = some "") →
      o.endpoint = some e → e ≠ "" → getAlias o = "mockGraphqlOps:" ++ e)
    ∧ (∀ o : Options, (o.name = none ∨ o.name = some "") →
      (o.endpoint = none ∨ o.endpoint = some "") → getAlias o = "mockGraphqlOps")
    ∧ (∀ (o₁ o₂ : Options) (n₁ n₂ : String), o₁.name = some n₁ → o₂.name = some n₂ →
      n₁ ≠ "" → n₂ ≠ "" → n₁ ≠ n₂ → getAlias o₁ ≠ getAlias o₂)
    ∧ (∀ (o₁ o₂ : Options) (e₁ e₂ : String), (o₁.name = none ∨ o₁.name = some "") →
      (o₂.name = none ∨ o₂.name = some "") → o₁.endpoint = some e₁ → o₂.endpoint = some e₂ →
      e₁ ≠ "" → e₂ ≠ "" → e₁ ≠ e₂ → getAlias o₁ ≠ getAlias o₂)
    ∧ (∀ (env : Env) (cy cy₁ cy₂ : Cy) (o₁ o₂ : Options), mockGraphql env cy o₁ = .ok cy₁ →
      mockGraphql env cy₁ o₂ = .ok cy₂ → getAlias o₁ ≠ getAlias o₂ →
      cy₂.resolve (getAlias o₁) = some cy.cells.length
      ∧ cy₂.resolve (getAlias o₂) = some (cy.cells.length + 1)) := by
  refine ⟨getAlias_named, getAlias_unnamed, getAlias_fallback, ?_, ?_, ?_⟩
  · intro o₁ o₂ n₁ n₂ h₁ h₂ hn₁ hn₂ hne heq
    rw [getAlias_named o₁ n₁ h₁ hn₁, getAlias_named o₂ n₂ h₂ hn₂] at heq
    exact hne (append_left_cancel _ _ _ heq)
  · intro o₁ o₂ e₁ e₂ hu₁ hu₂ h₁ h₂ hn₁ hn₂ hne heq
    rw [getAlias_unnamed o₁ e₁ hu₁ h₁ hn₁, getAlias_unnamed o₂ e₂ hu₂ h₂ hn₂] at heq
    exact hne (append_left_cancel _ _ _ heq)
  · intro env cy cy₁ cy₂ o₁ o₂ h₁ h₂ hne
    obtain ⟨s₁, rfl⟩ := mockGraphql_ok env cy cy₁ o₁ h₁
    obtain ⟨s₂, rfl⟩ := mockGraphql_ok env _ cy₂ o₂ h₂
    constructor
    · simp [Cy.resolve, lookupAlias, Ne.symm hne]
    · simp [Cy.resolve, lookupAlias]

/-- C8, at concrete configurations: a named configuration, and two setups
named `users` and `orders`. -/
theorem getAlias_cases_and_separation_witness :
    getAlias { bareOptions with name := some "users", endpoint := some "/api" }
      = "mockGraphqlOps:" ++ "users"
    ∧ getAlias { bareOptions with name := some "", endpoint := some "/api" }
      = "mockGraphqlOps:" ++ "/api"
    ∧ getAlias { bareOptions with name := some "", endpoint := none } = "mockGraphqlOps"
    ∧ getAlias { bareOptions with name := some "users" }
      ≠ getAlias { bareOptions with name := some "orders" }
    ∧ getAlias { bareOptions with endpoint := some "/a" }
      ≠ getAlias { bareOptions with endpoint := some "/b" }
    ∧ ∃ cy₁ cy₂ : Cy,
      mockGraphql sampleEnv Cy.empty { bareOptions with name := some "users" } = .ok cy₁
      ∧ mockGraphql sampleEnv cy₁ { bareOptions with name := some "orders" } = .ok cy₂
      ∧ cy₂.resolve (getAlias { bareOptions with name := some "users" }) = some 0
      ∧ cy₂.resolve (getAlias { bareOptions with name := some "orders" }) = some 1 :=
  have hne : getAlias { bareOptions with name := some "users" }
      ≠ getAlias { bareOptions with name := some "orders" } :=
    getAlias_cases_and_separation.2.2.2.1 _ _ "users" "orders" rfl rfl (by decide) (by decide)
      (by decide)
  ⟨getAlias_cases_and_separation.1 _ "users" rfl (by decide),
   getAlias_cases_and_separation.2.1 _ "/api" (Or.inr rfl) rfl (by decide),
   getAlias_cases_and_separation.2.2.1 _ (Or.inr rfl) (Or.inl rfl),
   hne,
   getAlias_cases_and_separation.2.2.2.2.1 _ _ "/a" "/b" (Or.inl rfl) (Or.inl rfl) rfl rfl
     (by decide) (by decide) (by decide),
   _, _, rfl, rfl,
   getAlias_cases_and_separation.2.2.2.2.2 sampleEnv Cy.empty _ _ _ _ rfl rfl hne⟩

end CypressGraphqlMock
